import Mathlib

/-!
Shallow embedding of the geometric region-resolution engine of the
pdf_analyz repository (class `LayoutAnalyzer` in
`src/page/layout_analyzer.py`), together with proofs about the
specification's claims on it.

Conventions of the embedding:
* Python floats are embedded as rationals (`ℚ`): every property under study
  is about comparisons, guarded division and piecewise-linear arithmetic.
* Python's `sorted` — a stable ascending sort by key — is embedded by
  `stable_sort`, a stable insertion sort: two stable sorts for the same
  total preorder compute the same list on every input.
* `getattr(b, "score", 0.0)` is embedded by a score field that is always
  present, `0` standing for the Python default.
* An uncaught Python exception inside a function is embedded by `Option`:
  `none` is the exceptional outcome, `some` the normal return value.
-/

namespace PdfAnalyz

/-- A detector box as seen through `BoxProtocol`: the four coordinates
returned by `coordinates` plus the confidence `score`. -/
structure Box where
  x1 : ℚ
  y1 : ℚ
  x2 : ℚ
  y2 : ℚ
  score : ℚ
deriving DecidableEq

/-- `layoutparser.elements.Rectangle` with fields `x_1, y_1, x_2, y_2`. -/
structure Rectangle where
  x1 : ℚ
  y1 : ℚ
  x2 : ℚ
  y2 : ℚ
deriving DecidableEq

/-- `layoutparser.elements.TextBlock`: a rectangle plus its label (`type`)
and confidence (`score`). -/
structure TextBlock where
  block : Rectangle
  type : String
  score : ℚ
deriving DecidableEq

/-- `Rectangle.area` of the external layoutparser library (the sort key of
`_resolve_overlaps`): `width * height` without clamping — distinct from
`LayoutAnalyzer._box_area`, which clamps each side at zero. -/
def Rectangle.area (r : Rectangle) : ℚ :=
  (r.x2 - r.x1) * (r.y2 - r.y1)

/-- `LayoutAnalyzer._box_area`. -/
def box_area (b : Box) : ℚ :=
  max 0 (b.x2 - b.x1) * max 0 (b.y2 - b.y1)

/-- `LayoutAnalyzer._contains`. -/
def contains (outer inner : Box) (tol : ℚ) : Bool :=
  decide (inner.x1 ≥ outer.x1 - tol ∧ inner.y1 ≥ outer.y1 - tol ∧
          inner.x2 ≤ outer.x2 + tol ∧ inner.y2 ≤ outer.y2 + tol)

/-- The intersection area of the two coordinate boxes, exactly as computed
inside `LayoutAnalyzer._iou` and `LayoutAnalyzer._containment_ratio`
(`max(0, xi2-xi1) * max(0, yi2-yi1)`). -/
def inter_area (e1 e2 : Box) : ℚ :=
  max 0 (min e1.x2 e2.x2 - max e1.x1 e2.x1) *
  max 0 (min e1.y2 e2.y2 - max e1.y1 e2.y1)

/-- `LayoutAnalyzer._iou`. -/
def iou (e1 e2 : Box) : ℚ :=
  let union_area := box_area e1 + box_area e2 - inter_area e1 e2
  if union_area > 0 then inter_area e1 e2 / union_area else 0

/-- `LayoutAnalyzer._containment_ratio`. -/
def containment_ratio (inner outer : Box) : ℚ :=
  if box_area inner > 0 then inter_area inner outer / box_area inner else 0

/-- `fitz.Rect`: a PyMuPDF rectangle with fields `x0, y0, x1, y1`. -/
structure FitzRect where
  x0 : ℚ
  y0 : ℚ
  x1 : ℚ
  y1 : ℚ
deriving DecidableEq

/-- `LayoutAnalyzer._rect_to_image_xy`, returning `(x1, y1, x2, y2)`. -/
def rect_to_image_xy (rect : FitzRect) (page_height_pt scale : ℚ) :
    ℚ × ℚ × ℚ × ℚ :=
  (rect.x0 * scale, (page_height_pt - rect.y1) * scale,
   rect.x1 * scale, (page_height_pt - rect.y0) * scale)

section Geometry

lemma box_area_nonneg (b : Box) : 0 ≤ box_area b :=
  mul_nonneg (le_max_left _ _) (le_max_left _ _)

lemma inter_area_nonneg (e1 e2 : Box) : 0 ≤ inter_area e1 e2 :=
  mul_nonneg (le_max_left _ _) (le_max_left _ _)

lemma inter_area_le_left (e1 e2 : Box) : inter_area e1 e2 ≤ box_area e1 := by
  unfold inter_area box_area
  apply mul_le_mul
  · exact max_le_max le_rfl (by
      have h1 : min e1.x2 e2.x2 ≤ e1.x2 := min_le_left _ _
      have h2 : e1.x1 ≤ max e1.x1 e2.x1 := le_max_left _ _
      linarith)
  · exact max_le_max le_rfl (by
      have h1 : min e1.y2 e2.y2 ≤ e1.y2 := min_le_left _ _
      have h2 : e1.y1 ≤ max e1.y1 e2.y1 := le_max_left _ _
      linarith)
  · exact le_max_left _ _
  · exact le_max_left _ _

lemma union_area_nonneg (e1 e2 : Box) :
    0 ≤ box_area e1 + box_area e2 - inter_area e1 e2 := by
  have h := inter_area_le_left e1 e2
  have h2 := box_area_nonneg e2
  linarith

end Geometry

/-- Claim C9: `iou` and `containment_ratio` are total with guarded division:
`iou e1 e2` equals `inter_area / (area e1 + area e2 - inter_area)` whenever
that union area is nonzero and equals `0` when the union area is `0`;
`containment_ratio inner outer` equals `inter_area / area inner` whenever
`area inner` is nonzero and equals `0` when `area inner = 0`; the division
is performed only under a strictly-positive-denominator guard, so neither
function can divide by zero. -/
theorem iou_containment_ratio_total (e1 e2 : Box) :
    (box_area e1 + box_area e2 - inter_area e1 e2 = 0 → iou e1 e2 = 0) ∧
    (box_area e1 + box_area e2 - inter_area e1 e2 ≠ 0 →
      iou e1 e2 = inter_area e1 e2 /
        (box_area e1 + box_area e2 - inter_area e1 e2)) ∧
    (box_area e1 = 0 → containment_ratio e1 e2 = 0) ∧
    (box_area e1 ≠ 0 →
      containment_ratio e1 e2 = inter_area e1 e2 / box_area e1) := by
  refine ⟨fun h => ?_, fun h => ?_, fun h => ?_, fun h => ?_⟩
  · unfold iou
    simp [h]
  · have hpos : 0 < box_area e1 + box_area e2 - inter_area e1 e2 :=
      lt_of_le_of_ne (union_area_nonneg e1 e2) (Ne.symm h)
    unfold iou
    simp [hpos]
  · unfold containment_ratio
    simp [h]
  · have hpos : 0 < box_area e1 :=
      lt_of_le_of_ne (box_area_nonneg e1) (Ne.symm h)
    unfold containment_ratio
    simp [hpos]

/-- Witness for C9: both guard directions realized at concrete boxes — the
degenerate box has union area `0` and `iou = 0`; two overlapping unit-height
boxes have nonzero union area, with `iou` equal to the unguarded quotient,
and nonzero inner area, with `containment_ratio` the unguarded quotient. -/
theorem iou_containment_ratio_total_witness :
    iou ⟨0, 0, 0, 0, 0⟩ ⟨0, 0, 0, 0, 0⟩ = 0 ∧
    iou ⟨0, 0, 2, 1, 0⟩ ⟨1, 0, 3, 1, 0⟩ =
      inter_area ⟨0, 0, 2, 1, 0⟩ ⟨1, 0, 3, 1, 0⟩ /
        (box_area ⟨0, 0, 2, 1, 0⟩ + box_area ⟨1, 0, 3, 1, 0⟩ -
          inter_area ⟨0, 0, 2, 1, 0⟩ ⟨1, 0, 3, 1, 0⟩) ∧
    containment_ratio ⟨0, 0, 0, 0, 0⟩ ⟨0, 0, 2, 1, 0⟩ = 0 ∧
    containment_ratio ⟨0, 0, 2, 1, 0⟩ ⟨1, 0, 3, 1, 0⟩ =
      inter_area ⟨0, 0, 2, 1, 0⟩ ⟨1, 0, 3, 1, 0⟩ / box_area ⟨0, 0, 2, 1, 0⟩ :=
  ⟨(iou_containment_ratio_total ⟨0, 0, 0, 0, 0⟩ ⟨0, 0, 0, 0, 0⟩).1
      (by norm_num [box_area, inter_area]),
   (iou_containment_ratio_total ⟨0, 0, 2, 1, 0⟩ ⟨1, 0, 3, 1, 0⟩).2.1
      (by norm_num [box_area, inter_area]),
   (iou_containment_ratio_total ⟨0, 0, 0, 0, 0⟩ ⟨0, 0, 2, 1, 0⟩).2.2.1
      (by norm_num [box_area]),
   (iou_containment_ratio_total ⟨0, 0, 2, 1, 0⟩ ⟨1, 0, 3, 1, 0⟩).2.2.2
      (by norm_num [box_area])⟩

/-- Claim C6: the page-point to pixel coordinate map computes exactly
`x1' = x0*scale`, `y1' = (pageHeightPts - y1)*scale`, `x2' = x1*scale`,
`y2' = (pageHeightPts - y0)*scale`, flipping the vertical axis between the
bottom-left-origin page space and the top-left-origin pixel space (the
input rectangle's first and second x coordinates are `x0, x1` in fitz
field naming, the claim's `x1, x2`). -/
theorem rect_to_image_xy_eq (rect : FitzRect) (page_height_pt scale : ℚ) :
    rect_to_image_xy rect page_height_pt scale =
      (rect.x0 * scale, (page_height_pt - rect.y1) * scale,
       rect.x1 * scale, (page_height_pt - rect.y0) * scale) := rfl

/-- Stable insertion into a sorted list (helper of `stable_sort`). -/
def ordered_insert {α : Type} (le : α → α → Bool) (a : α) : List α → List α
  | [] => [a]
  | b :: l => if le a b then a :: b :: l else b :: ordered_insert le a l

/-- Stable ascending sort. This embeds Python's `sorted`, which is also a
stable ascending sort: two stable sorts for the same total preorder compute
the same list on every input. -/
def stable_sort {α : Type} (le : α → α → Bool) : List α → List α
  | [] => []
  | a :: l => ordered_insert le a (stable_sort le l)

/-- The key order of `LayoutAnalyzer._sorted_by_score_then_area`:
ascending lexicographic comparison of the keys `(-score, -box_area)`,
i.e. descending score, then descending clamped area. -/
def score_area_le (a b : Box) : Bool :=
  decide (b.score < a.score ∨ (a.score = b.score ∧ box_area b ≤ box_area a))

/-- `LayoutAnalyzer._sorted_by_score_then_area`. -/
def sorted_by_score_then_area (boxes : List Box) : List Box :=
  stable_sort score_area_le boxes

/-- `LayoutAnalyzer._suppress_with_rules`: the early-`return True` loop is a
`List.any`. -/
def suppress_with_rules (selected : List Box) (candidate : Box)
    (const_thresh iou_thresh tol : ℚ) : Bool :=
  selected.any fun sel =>
    contains sel candidate tol ||
    decide (containment_ratio candidate sel ≥ const_thresh) ||
    decide (iou candidate sel ≥ iou_thresh)

/-- `LayoutAnalyzer._remove_superseded`.  Its body is the comprehension
`[sel for sel in selected if not self._conflict(keeper, sel, ...)]`, but no
method `_conflict` is defined anywhere in the repository, so the first
evaluation of the comprehension's test raises `AttributeError`; an empty
`selected` never evaluates the test and yields the empty list.  The raised
exception is embedded as `none`. -/
def remove_superseded (selected : List Box) (keeper : Box)
    (const_thresh iou_thresh tol : ℚ) : Option (List Box) :=
  match selected, keeper, const_thresh, iou_thresh, tol with
  | [], _, _, _, _ => some []
  | _ :: _, _, _, _, _ => none

/-- The candidate loop of `LayoutAnalyzer._hierarchical_filter`, with the
`selected` accumulator as second list argument; `none` embeds an uncaught
`AttributeError` escaping the loop. -/
def hierarchical_filter_loop (const_thresh iou_thresh tol : ℚ) :
    List Box → List Box → Option (List Box)
  | [], selected => some selected
  | c :: rest, selected =>
    if suppress_with_rules selected c const_thresh iou_thresh tol then
      hierarchical_filter_loop const_thresh iou_thresh tol rest selected
    else
      match remove_superseded selected c const_thresh iou_thresh tol with
      | none => none
      | some remain =>
          hierarchical_filter_loop const_thresh iou_thresh tol rest (remain ++ [c])

/-- `LayoutAnalyzer._hierarchical_filter`. -/
def hierarchical_filter (layout : List Box) (min_score const_tresh iou_thresh tol : ℚ) :
    Option (List Box) :=
  let candidates := layout.filter fun b => decide (b.score ≥ min_score)
  hierarchical_filter_loop const_tresh iou_thresh tol
    (sorted_by_score_then_area candidates) []

section SortLemmas

lemma mem_ordered_insert {α : Type} (le : α → α → Bool) (a x : α) (l : List α) :
    x ∈ ordered_insert le a l ↔ x = a ∨ x ∈ l := by
  induction l with
  | nil => simp [ordered_insert]
  | cons b t ih =>
      by_cases h : le a b
      · simp [ordered_insert, h]
      · rw [ordered_insert, if_neg h]
        simp only [List.mem_cons, ih]
        tauto

lemma mem_stable_sort {α : Type} (le : α → α → Bool) (x : α) (l : List α) :
    x ∈ stable_sort le l ↔ x ∈ l := by
  induction l with
  | nil => simp [stable_sort]
  | cons a t ih => simp [stable_sort, mem_ordered_insert, ih]

end SortLemmas

section SuppressorLemmas

lemma hierarchical_filter_loop_ne_nil (ct it tol : ℚ) (cands : List Box) :
    ∀ selected out : List Box, selected ≠ [] →
      hierarchical_filter_loop ct it tol cands selected = some out →
      out = selected := by
  induction cands with
  | nil =>
      intro selected out _ h
      simpa [hierarchical_filter_loop] using h.symm
  | cons c rest ih =>
      intro selected out hne h
      by_cases hs : suppress_with_rules selected c ct it tol
      · rw [show hierarchical_filter_loop ct it tol (c :: rest) selected =
              hierarchical_filter_loop ct it tol rest selected by
            simp [hierarchical_filter_loop, hs]] at h
        exact ih selected out hne h
      · obtain ⟨s0, ss, rfl⟩ : ∃ s0 ss, selected = s0 :: ss := by
          cases selected with
          | nil => exact absurd rfl hne
          | cons a l => exact ⟨a, l, rfl⟩
        simp [hierarchical_filter_loop, hs, remove_superseded] at h

lemma hierarchical_filter_loop_nil_start (ct it tol : ℚ) (cands out : List Box)
    (h : hierarchical_filter_loop ct it tol cands [] = some out) :
    (cands = [] ∧ out = []) ∨ ∃ c rest, cands = c :: rest ∧ out = [c] := by
  cases cands with
  | nil =>
      left
      exact ⟨rfl, by simpa [hierarchical_filter_loop] using h.symm⟩
  | cons c rest =>
      right
      refine ⟨c, rest, rfl, ?_⟩
      have h' : hierarchical_filter_loop ct it tol rest [c] = some out := by
        simpa [hierarchical_filter_loop, suppress_with_rules,
               remove_superseded] using h
      exact hierarchical_filter_loop_ne_nil ct it tol rest [c] out (by simp) h'

/-- Any normally-returned result of `_hierarchical_filter` is either empty
(no candidate passed the score gate) or the single top-ranked candidate:
accepting a second candidate always evaluates the missing `_conflict`
method. -/
lemma hierarchical_filter_ok (l out : List Box) (m ct it tol : ℚ)
    (h : hierarchical_filter l m ct it tol = some out) :
    (sorted_by_score_then_area (l.filter fun b => decide (b.score ≥ m)) = [] ∧
      out = []) ∨
    ∃ c rest,
      sorted_by_score_then_area (l.filter fun b => decide (b.score ≥ m)) =
        c :: rest ∧ out = [c] := by
  simp only [hierarchical_filter] at h
  exact hierarchical_filter_loop_nil_start ct it tol _ out h

end SuppressorLemmas

/-- Claim C5: a candidate `c` is discarded by the suppression test exactly
when some already-selected region `s` satisfies `contains s c tol`, or
`containment_ratio c s ≥ const_thresh`, or `iou c s ≥ iou_thresh` — each of
the three predicates alone suffices — and on a discarded candidate the
filter loop moves to the next candidate with `selected` unchanged. -/
theorem suppress_with_rules_iff (selected : List Box) (c : Box)
    (ct it tol : ℚ) (rest : List Box) :
    (suppress_with_rules selected c ct it tol = true ↔
      ∃ s ∈ selected, contains s c tol = true ∨
        containment_ratio c s ≥ ct ∨ iou c s ≥ it) ∧
    (suppress_with_rules selected c ct it tol = true →
      hierarchical_filter_loop ct it tol (c :: rest) selected =
        hierarchical_filter_loop ct it tol rest selected) := by
  constructor
  · simp [suppress_with_rules, List.any_eq_true, Bool.or_eq_true,
          decide_eq_true_eq, or_assoc]
  · intro hs
    simp [hierarchical_filter_loop, hs]

/-- Witness for C5: a selected region containing the candidate (one
predicate alone) discards it, and the loop then leaves `selected` as it
was. -/
theorem suppress_with_rules_iff_witness :
    (∃ s ∈ [(⟨0, 0, 100, 100, 9⟩ : Box)],
      contains s ⟨10, 10, 50, 50, 3⟩ (0 : ℚ) = true ∨
        containment_ratio ⟨10, 10, 50, 50, 3⟩ s ≥ (9/10 : ℚ) ∨
        iou ⟨10, 10, 50, 50, 3⟩ s ≥ (2/5 : ℚ)) ∧
    hierarchical_filter_loop (9/10) (2/5) 0
        [⟨10, 10, 50, 50, 3⟩] [⟨0, 0, 100, 100, 9⟩] =
      hierarchical_filter_loop (9/10) (2/5) 0 [] [⟨0, 0, 100, 100, 9⟩] :=
  ⟨(suppress_with_rules_iff [⟨0, 0, 100, 100, 9⟩] ⟨10, 10, 50, 50, 3⟩
      (9/10) (2/5) 0 []).1.mp (by norm_num [suppress_with_rules, contains]),
   (suppress_with_rules_iff [⟨0, 0, 100, 100, 9⟩] ⟨10, 10, 50, 50, 3⟩
      (9/10) (2/5) 0 []).2 (by norm_num [suppress_with_rules, contains])⟩

/-- Claim C1 (evaluation of the code at the failing input): on two disjoint
candidates that both pass the score gate and do not suppress each other,
`_hierarchical_filter` does not complete normally — accepting the second
candidate calls `_remove_superseded`, whose comprehension evaluates the
undefined method `self._conflict` and raises `AttributeError` (embedded as
`none`). -/
theorem hierarchical_filter_raises_attribute_error :
    hierarchical_filter [⟨0, 0, 10, 10, 9⟩, ⟨20, 20, 30, 30, 8⟩]
      2 (9/10) (2/5) 0 = none := by
  norm_num [hierarchical_filter, sorted_by_score_then_area, stable_sort,
    ordered_insert, score_area_le, hierarchical_filter_loop,
    suppress_with_rules, remove_superseded, contains, containment_ratio,
    iou, inter_area, box_area]

/-- Claim C3: raising `minScore` never increases the number of regions
returned by the hierarchical filter — for any two score thresholds
`m1 ≤ m2` whose runs both return normally, the `m2` run returns at most as
many regions as the `m1` run. -/
theorem hierarchical_filter_min_score_monotone (l o1 o2 : List Box)
    (m1 m2 ct it tol : ℚ) (hm : m1 ≤ m2)
    (h1 : hierarchical_filter l m1 ct it tol = some o1)
    (h2 : hierarchical_filter l m2 ct it tol = some o2) :
    o2.length ≤ o1.length := by
  rcases hierarchical_filter_ok l o2 m2 ct it tol h2 with ⟨_, rfl⟩ | ⟨c, rest, hs2, rfl⟩
  · simp
  · rcases hierarchical_filter_ok l o1 m1 ct it tol h1 with ⟨hs1, rfl⟩ | ⟨c', rest', _, rfl⟩
    · exfalso
      have hc : c ∈ l.filter fun b => decide (b.score ≥ m2) :=
        (mem_stable_sort _ _ _).1 (hs2 ▸ List.mem_cons_self _ _)
      have hcl : c ∈ l := (List.mem_filter.1 hc).1
      have hcs : m2 ≤ c.score := by simpa using (List.mem_filter.1 hc).2
      have hc1 : c ∈ l.filter fun b => decide (b.score ≥ m1) :=
        List.mem_filter.2 ⟨hcl, by simpa using le_trans hm hcs⟩
      have hmem : c ∈ sorted_by_score_then_area
          (l.filter fun b => decide (b.score ≥ m1)) :=
        (mem_stable_sort _ _ _).2 hc1
      rw [hs1] at hmem
      simp at hmem
    · simp

/-- Witness for C3: with thresholds `2 ≤ 5` on a layout whose two boxes
score `9` and `3`, the `minScore = 5` run returns no more regions than the
`minScore = 2` run (both return exactly the top box). -/
theorem hierarchical_filter_min_score_monotone_witness :
    (2 : ℚ) ≤ 5 ∧
    ([(⟨0, 0, 100, 100, 9⟩ : Box)] : List Box).length ≤
      ([(⟨0, 0, 100, 100, 9⟩ : Box)] : List Box).length :=
  ⟨by norm_num,
   hierarchical_filter_min_score_monotone
     [⟨0, 0, 100, 100, 9⟩, ⟨10, 10, 50, 50, 3⟩]
     [⟨0, 0, 100, 100, 9⟩] [⟨0, 0, 100, 100, 9⟩] 2 5 (9/10) (2/5) 0
     (by norm_num)
     (by norm_num [hierarchical_filter, sorted_by_score_then_area,
        stable_sort, ordered_insert, score_area_le, hierarchical_filter_loop,
        suppress_with_rules, remove_superseded, contains, containment_ratio,
        iou, inter_area, box_area])
     (by norm_num [hierarchical_filter, sorted_by_score_then_area,
        stable_sort, ordered_insert, score_area_le, hierarchical_filter_loop,
        suppress_with_rules, remove_superseded, contains, containment_ratio,
        iou, inter_area, box_area])⟩

/-- Claim C4: the hierarchical filter is idempotent — re-applying it with
the same parameters to any output it returned normally returns that exact
output again. -/
theorem hierarchical_filter_idempotent (l out : List Box) (m ct it tol : ℚ)
    (h : hierarchical_filter l m ct it tol = some out) :
    hierarchical_filter out m ct it tol = some out := by
  rcases hierarchical_filter_ok l out m ct it tol h with ⟨_, rfl⟩ | ⟨c, rest, hs, rfl⟩
  · rfl
  · have hc : c ∈ l.filter fun b => decide (b.score ≥ m) :=
      (mem_stable_sort _ _ _).1 (hs ▸ List.mem_cons_self _ _)
    have hscore : decide (c.score ≥ m) = true := (List.mem_filter.1 hc).2
    show hierarchical_filter [c] m ct it tol = some [c]
    simp [hierarchical_filter, List.filter_cons, hscore,
      sorted_by_score_then_area, stable_sort, ordered_insert,
      hierarchical_filter_loop, suppress_with_rules, remove_superseded]

/-- Witness for C4: re-applying the filter to the output it returned on a
two-candidate layout (the contained low-score box was suppressed) returns
that output unchanged. -/
theorem hierarchical_filter_idempotent_witness :
    hierarchical_filter [(⟨0, 0, 100, 100, 9⟩ : Box)] 2 (9/10) (2/5) 0 =
      some [⟨0, 0, 100, 100, 9⟩] :=
  hierarchical_filter_idempotent
    [⟨0, 0, 100, 100, 9⟩, ⟨10, 10, 50, 50, 3⟩] [⟨0, 0, 100, 100, 9⟩]
    2 (9/10) (2/5) 0
    (by norm_num [hierarchical_filter, sorted_by_score_then_area,
        stable_sort, ordered_insert, score_area_le, hierarchical_filter_loop,
        suppress_with_rules, remove_superseded, contains, containment_ratio,
        iou, inter_area, box_area])

/-- `LayoutAnalyzer._rect_intersects`. -/
def rect_intersects (r1 r2 : Rectangle) : Bool :=
  decide (min r1.x2 r2.x2 - max r1.x1 r2.x1 > 0 ∧
          min r1.y2 r2.y2 - max r1.y1 r2.y1 > 0)

/-- Intersection area of two `Rectangle`s (the spec's `intersectionArea`),
computed like the box intersection inside `_iou`. -/
def rect_inter_area (r1 r2 : Rectangle) : ℚ :=
  max 0 (min r1.x2 r2.x2 - max r1.x1 r2.x1) *
  max 0 (min r1.y2 r2.y2 - max r1.y1 r2.y1)

/-- `LayoutAnalyzer._subtract_overlap`. -/
def subtract_overlap (src other : Rectangle) : Option Rectangle :=
  if ¬ rect_intersects src other then some src
  else
    let new_rect : Rectangle :=
      if src.y1 < other.y1 ∧ other.y1 < src.y2 then
        ⟨src.x1, src.y1, src.x2, other.y1⟩
      else
        ⟨src.x1, other.y2, src.x2, src.y2⟩
    if new_rect.x2 - new_rect.x1 ≤ 0 ∨ new_rect.y2 - new_rect.y1 ≤ 0 then none
    else some new_rect

/-- The inner loop of `LayoutAnalyzer._resolve_overlaps`: clip `rect`
against each already-accepted block in order; `none` embeds the
`rect = None; break` outcome (the block is dropped). -/
def clip_against (rect : Rectangle) : List TextBlock → Option Rectangle
  | [] => some rect
  | a :: rest =>
    if rect_intersects rect a.block then
      match subtract_overlap rect a.block with
      | none => none
      | some r => clip_against r rest
    else clip_against rect rest

/-- The outer loop of `LayoutAnalyzer._resolve_overlaps`, accumulating the
`resolved` list. -/
def resolve_loop : List TextBlock → List TextBlock → List TextBlock
  | [], resolved => resolved
  | blk :: rest, resolved =>
    match clip_against blk.block resolved with
    | none => resolve_loop rest resolved
    | some r => resolve_loop rest (resolved ++ [⟨r, blk.type, blk.score⟩])

/-- `LayoutAnalyzer._resolve_overlaps`: blocks sorted ascending by the
(unclamped) layoutparser area, then resolved in order. -/
def resolve_overlaps (layout : List TextBlock) : List TextBlock :=
  resolve_loop
    (stable_sort (fun a b => decide (a.block.area ≤ b.block.area)) layout) []

section ResolverLemmas

lemma rect_inter_area_nonneg (r1 r2 : Rectangle) : 0 ≤ rect_inter_area r1 r2 :=
  mul_nonneg (le_max_left _ _) (le_max_left _ _)

lemma rect_inter_area_comm (r1 r2 : Rectangle) :
    rect_inter_area r1 r2 = rect_inter_area r2 r1 := by
  unfold rect_inter_area
  rw [min_comm r1.x2 r2.x2, max_comm r1.x1 r2.x1,
      min_comm r1.y2 r2.y2, max_comm r1.y1 r2.y1]

lemma not_intersects_inter_area_zero (r1 r2 : Rectangle)
    (h : rect_intersects r1 r2 = false) : rect_inter_area r1 r2 = 0 := by
  have h' : ¬(min r1.x2 r2.x2 - max r1.x1 r2.x1 > 0 ∧
              min r1.y2 r2.y2 - max r1.y1 r2.y1 > 0) := by
    simpa [rect_intersects] using h
  rcases not_and_or.mp h' with hx | hy
  · rw [rect_inter_area, max_eq_left (not_lt.mp hx), zero_mul]
  · rw [rect_inter_area, max_eq_left (not_lt.mp hy), mul_zero]

/-- `r'` is a vertical sub-slice of `r`: the same horizontal extent and a
vertical interval contained in `r`'s. -/
def SubRect (r' r : Rectangle) : Prop :=
  r'.x1 = r.x1 ∧ r'.x2 = r.x2 ∧ r.y1 ≤ r'.y1 ∧ r'.y2 ≤ r.y2

lemma SubRect.refl (r : Rectangle) : SubRect r r :=
  ⟨rfl, rfl, le_rfl, le_rfl⟩

lemma SubRect.trans {a b c : Rectangle} (h1 : SubRect a b) (h2 : SubRect b c) :
    SubRect a c :=
  ⟨h1.1.trans h2.1, h1.2.1.trans h2.2.1, h2.2.2.1.trans h1.2.2.1,
   h1.2.2.2.trans h2.2.2.2⟩

lemma rect_inter_area_le_of_sub {r' r : Rectangle} (h : SubRect r' r)
    (o : Rectangle) : rect_inter_area r' o ≤ rect_inter_area r o := by
  obtain ⟨hx1, hx2, hy1, hy2⟩ := h
  unfold rect_inter_area
  rw [hx1, hx2]
  refine mul_le_mul_of_nonneg_left ?_ (le_max_left _ _)
  refine max_le_max le_rfl ?_
  have h1 : min r'.y2 o.y2 ≤ min r.y2 o.y2 := min_le_min hy2 le_rfl
  have h2 : max r.y1 o.y1 ≤ max r'.y1 o.y1 := max_le_max hy1 le_rfl
  linarith

lemma rect_inter_area_zero_of_sub {r' r : Rectangle} (h : SubRect r' r)
    {o : Rectangle} (ho : rect_inter_area r o = 0) :
    rect_inter_area r' o = 0 :=
  le_antisymm (ho ▸ rect_inter_area_le_of_sub h o) (rect_inter_area_nonneg _ _)

lemma subtract_overlap_top (src other : Rectangle)
    (hi : rect_intersects src other = true)
    (hc : src.y1 < other.y1 ∧ other.y1 < src.y2) :
    subtract_overlap src other =
      if src.x2 - src.x1 ≤ 0 ∨ other.y1 - src.y1 ≤ 0 then none
      else some ⟨src.x1, src.y1, src.x2, other.y1⟩ := by
  simp [subtract_overlap, hi, hc]

lemma subtract_overlap_bot (src other : Rectangle)
    (hi : rect_intersects src other = true)
    (hc : ¬(src.y1 < other.y1 ∧ other.y1 < src.y2)) :
    subtract_overlap src other =
      if src.x2 - src.x1 ≤ 0 ∨ src.y2 - other.y2 ≤ 0 then none
      else some ⟨src.x1, other.y2, src.x2, src.y2⟩ := by
  simp [subtract_overlap, hi, hc]

lemma subtract_overlap_some_sub {src other r' : Rectangle}
    (h : subtract_overlap src other = some r') : SubRect r' src := by
  by_cases hi : rect_intersects src other = true
  · by_cases hc : src.y1 < other.y1 ∧ other.y1 < src.y2
    · rw [subtract_overlap_top src other hi hc] at h
      split at h
      · exact absurd h (by simp)
      · cases Option.some.inj h
        exact ⟨rfl, rfl, le_rfl, le_of_lt hc.2⟩
    · rw [subtract_overlap_bot src other hi hc] at h
      split at h
      · exact absurd h (by simp)
      · cases Option.some.inj h
        have hiq : 0 < min src.x2 other.x2 - max src.x1 other.x1 ∧
            0 < min src.y2 other.y2 - max src.y1 other.y1 := by
          simpa [rect_intersects] using hi
        have h1 : src.y1 ≤ max src.y1 other.y1 := le_max_left _ _
        have h2 : min src.y2 other.y2 ≤ other.y2 := min_le_right _ _
        exact ⟨rfl, rfl, by have := hiq.2; linarith, le_rfl⟩
  · have hi' : rect_intersects src other = false := by
      simpa using hi
    rw [subtract_overlap, if_pos (by simp [hi'])] at h
    cases Option.some.inj h
    exact SubRect.refl src

lemma subtract_overlap_some_disjoint {src other r' : Rectangle}
    (h : subtract_overlap src other = some r') :
    rect_inter_area r' other = 0 := by
  by_cases hi : rect_intersects src other = true
  · by_cases hc : src.y1 < other.y1 ∧ other.y1 < src.y2
    · rw [subtract_overlap_top src other hi hc] at h
      split at h
      · exact absurd h (by simp)
      · cases Option.some.inj h
        have hle : min other.y1 other.y2 - max src.y1 other.y1 ≤ 0 := by
          have h1 := min_le_left other.y1 other.y2
          have h2 := le_max_right src.y1 other.y1
          linarith
        rw [rect_inter_area]
        show max 0 _ * max 0 (min other.y1 other.y2 - max src.y1 other.y1) = 0
        rw [max_eq_left hle, mul_zero]
    · rw [subtract_overlap_bot src other hi hc] at h
      split at h
      · exact absurd h (by simp)
      · cases Option.some.inj h
        have hle : min src.y2 other.y2 - max other.y2 other.y1 ≤ 0 := by
          have h1 := min_le_right src.y2 other.y2
          have h2 := le_max_left other.y2 other.y1
          linarith
        rw [rect_inter_area]
        show max 0 _ * max 0 (min src.y2 other.y2 - max other.y2 other.y1) = 0
        rw [max_eq_left hle, mul_zero]
  · have hi' : rect_intersects src other = false := by
      simpa using hi
    rw [subtract_overlap, if_pos (by simp [hi'])] at h
    cases Option.some.inj h
    exact not_intersects_inter_area_zero src other hi'

lemma clip_against_spec :
    ∀ (acc : List TextBlock) (r r' : Rectangle),
      clip_against r acc = some r' →
      SubRect r' r ∧ ∀ a ∈ acc, rect_inter_area r' a.block = 0 := by
  intro acc
  induction acc with
  | nil =>
      intro r r' h
      cases Option.some.inj h
      exact ⟨SubRect.refl r, by simp⟩
  | cons a rest ih =>
      intro r r' h
      by_cases hi : rect_intersects r a.block = true
      · rw [clip_against, if_pos (by simp [hi])] at h
        cases hs : subtract_overlap r a.block with
        | none => rw [hs] at h; exact absurd h (by simp)
        | some r1 =>
            rw [hs] at h
            obtain ⟨hsub, hall⟩ := ih r1 r' h
            refine ⟨hsub.trans (subtract_overlap_some_sub hs), ?_⟩
            intro b hb
            rcases List.mem_cons.1 hb with rfl | hb'
            · exact rect_inter_area_zero_of_sub hsub
                (subtract_overlap_some_disjoint hs)
            · exact hall b hb'
      · have hi' : rect_intersects r a.block = false := by simpa using hi
        rw [clip_against, if_neg (by simp [hi'])] at h
        obtain ⟨hsub, hall⟩ := ih r r' h
        refine ⟨hsub, ?_⟩
        intro b hb
        rcases List.mem_cons.1 hb with rfl | hb'
        · exact rect_inter_area_zero_of_sub hsub
            (not_intersects_inter_area_zero r b.block hi')
        · exact hall b hb'

lemma resolve_loop_pairwise :
    ∀ (ordered resolved : List TextBlock),
      resolved.Pairwise (fun a b => rect_inter_area a.block b.block = 0) →
      (resolve_loop ordered resolved).Pairwise
        (fun a b => rect_inter_area a.block b.block = 0) := by
  intro ordered
  induction ordered with
  | nil => intro resolved h; simpa [resolve_loop] using h
  | cons blk rest ih =>
      intro resolved h
      cases hc : clip_against blk.block resolved with
      | none =>
          rw [resolve_loop, hc]
          exact ih resolved h
      | some r =>
          rw [resolve_loop, hc]
          apply ih
          rw [List.pairwise_append]
          refine ⟨h, by simp, ?_⟩
          intro a ha b hb
          rcases List.mem_singleton.1 hb with rfl
          show rect_inter_area a.block r = 0
          rw [rect_inter_area_comm]
          exact (clip_against_spec resolved blk.block r hc).2 a ha

lemma resolve_loop_mem :
    ∀ (ordered resolved : List TextBlock) (b : TextBlock),
      b ∈ resolve_loop ordered resolved →
      b ∈ resolved ∨ ∃ src ∈ ordered,
        SubRect b.block src.block ∧ b.type = src.type ∧ b.score = src.score := by
  intro ordered
  induction ordered with
  | nil => intro resolved b h; left; simpa [resolve_loop] using h
  | cons blk rest ih =>
      intro resolved b h
      cases hc : clip_against blk.block resolved with
      | none =>
          rw [resolve_loop, hc] at h
          rcases ih resolved b h with h' | ⟨src, hs, hp⟩
          · exact Or.inl h'
          · exact Or.inr ⟨src, List.mem_cons_of_mem _ hs, hp⟩
      | some r =>
          rw [resolve_loop, hc] at h
          rcases ih _ b h with h' | ⟨src, hs, hp⟩
          · rcases List.mem_append.1 h' with h'' | h''
            · exact Or.inl h''
            · rcases List.mem_singleton.1 h'' with rfl
              exact Or.inr ⟨blk, List.mem_cons_self _ _,
                (clip_against_spec resolved blk.block r hc).1, rfl, rfl⟩
          · exact Or.inr ⟨src, List.mem_cons_of_mem _ hs, hp⟩

end ResolverLemmas

/-- Claim C2: the output of `_resolve_overlaps` is pairwise disjoint — any
two regions at distinct positions of the output have intersection area
zero. -/
theorem resolve_overlaps_disjoint (l : List TextBlock) (i j : ℕ)
    (hi : i < (resolve_overlaps l).length)
    (hj : j < (resolve_overlaps l).length) (hij : i ≠ j) :
    rect_inter_area ((resolve_overlaps l).get ⟨i, hi⟩).block
      ((resolve_overlaps l).get ⟨j, hj⟩).block = 0 := by
  have hp : (resolve_overlaps l).Pairwise
      (fun a b => rect_inter_area a.block b.block = 0) :=
    resolve_loop_pairwise _ [] (by simp)
  have hg := List.pairwise_iff_get.1 hp
  rcases lt_trichotomy i j with h | h | h
  · exact hg ⟨i, hi⟩ ⟨j, hj⟩ h
  · exact absurd h hij
  · rw [rect_inter_area_comm]
    exact hg ⟨j, hj⟩ ⟨i, hi⟩ h

/-- Witness for C2: two overlapping input blocks come out of the resolver
as two blocks with intersection area zero (the second is clipped). -/
theorem resolve_overlaps_disjoint_witness :
    rect_inter_area (⟨0, 0, 10, 10⟩ : Rectangle) ⟨0, 10, 10, 15⟩ = 0 := by
  have heval : resolve_overlaps
      [⟨⟨0, 0, 10, 10⟩, "a", 1⟩, ⟨⟨0, 5, 10, 15⟩, "b", 1⟩] =
      [⟨⟨0, 0, 10, 10⟩, "a", 1⟩, ⟨⟨0, 10, 10, 15⟩, "b", 1⟩] := by
    norm_num [resolve_overlaps, stable_sort, ordered_insert, Rectangle.area,
      resolve_loop, clip_against, subtract_overlap, rect_intersects]
  have h := resolve_overlaps_disjoint
    [⟨⟨0, 0, 10, 10⟩, "a", 1⟩, ⟨⟨0, 5, 10, 15⟩, "b", 1⟩] 0 1
    (by rw [heval]; norm_num) (by rw [heval]; norm_num) (by norm_num)
  simpa [heval] using h

/-- Claim C8: for intersecting rectangles, `_subtract_overlap` clips `r` to
`[r.x1, r.y1, r.x2, a.y1]` when `r.y1 < a.y1 < r.y2` and to
`[r.x1, a.y2, r.x2, r.y2]` otherwise, returns `none` instead of a clipped
rectangle of non-positive width or height, and on `none` the resolver's
inner loop stops immediately — no further accepted regions are checked. -/
theorem subtract_overlap_clips (r a : Rectangle)
    (h : rect_intersects r a = true) :
    (subtract_overlap r a =
      if r.y1 < a.y1 ∧ a.y1 < r.y2 then
        if r.x2 - r.x1 ≤ 0 ∨ a.y1 - r.y1 ≤ 0 then none
        else some ⟨r.x1, r.y1, r.x2, a.y1⟩
      else
        if r.x2 - r.x1 ≤ 0 ∨ r.y2 - a.y2 ≤ 0 then none
        else some ⟨r.x1, a.y2, r.x2, r.y2⟩) ∧
    (subtract_overlap r a = none →
      ∀ (tb : TextBlock) (rest : List TextBlock), tb.block = a →
        clip_against r (tb :: rest) = none) := by
  constructor
  · by_cases hc : r.y1 < a.y1 ∧ a.y1 < r.y2
    · rw [subtract_overlap_top r a h hc, if_pos hc]
    · rw [subtract_overlap_bot r a h hc, if_neg hc]
  · intro hn tb rest htb
    rw [clip_against, htb, if_pos (by simp [h]), hn]

/-- Witness for C8: an accepted region crossing the current rectangle's
bottom edge clips it to its top part, and a full vertical cover makes the
subtraction drop the rectangle, stopping the inner loop. -/
theorem subtract_overlap_clips_witness :
    subtract_overlap ⟨0, 0, 10, 10⟩ ⟨0, 5, 10, 15⟩ = some ⟨0, 0, 10, 5⟩ ∧
    clip_against ⟨0, 0, 10, 10⟩
      [⟨⟨-1, -1, 11, 11⟩, "a", 1⟩, ⟨⟨50, 50, 60, 60⟩, "b", 1⟩] = none := by
  constructor
  · have h := (subtract_overlap_clips ⟨0, 0, 10, 10⟩ ⟨0, 5, 10, 15⟩
      (by norm_num [rect_intersects])).1
    rw [h]
    norm_num
  · have hn : subtract_overlap ⟨0, 0, 10, 10⟩ ⟨-1, -1, 11, 11⟩ = none := by
      norm_num [subtract_overlap, rect_intersects]
    exact (subtract_overlap_clips ⟨0, 0, 10, 10⟩ ⟨-1, -1, 11, 11⟩
      (by norm_num [rect_intersects])).2 hn ⟨⟨-1, -1, 11, 11⟩, "a", 1⟩ _ rfl

/-- Claim C10: every region surviving `_resolve_overlaps` keeps some source
region's horizontal extent (`x1`, `x2`) exactly, its vertical interval is a
sub-interval of that source's, and its label (`type`) and `score` are
carried over unchanged. -/
theorem resolve_overlaps_frame (l : List TextBlock) (b : TextBlock)
    (hb : b ∈ resolve_overlaps l) :
    ∃ src ∈ l, b.block.x1 = src.block.x1 ∧ b.block.x2 = src.block.x2 ∧
      src.block.y1 ≤ b.block.y1 ∧ b.block.y2 ≤ src.block.y2 ∧
      b.type = src.type ∧ b.score = src.score := by
  rcases resolve_loop_mem _ [] b hb with h | ⟨src, hs, hsub, hty, hsc⟩
  · simp at h
  · exact ⟨src, (mem_stable_sort _ _ _).1 hs,
      hsub.1, hsub.2.1, hsub.2.2.1, hsub.2.2.2, hty, hsc⟩

/-- Witness for C10: the clipped output block keeps the overlapped source
block's horizontal extent, a vertical sub-interval, and its label and
score. -/
theorem resolve_overlaps_frame_witness :
    ∃ src ∈ [(⟨⟨0, 0, 10, 10⟩, "a", 1⟩ : TextBlock), ⟨⟨0, 5, 10, 15⟩, "b", 2⟩],
      (⟨⟨0, 10, 10, 15⟩, "b", 2⟩ : TextBlock).block.x1 = src.block.x1 ∧
      (⟨⟨0, 10, 10, 15⟩, "b", 2⟩ : TextBlock).block.x2 = src.block.x2 ∧
      src.block.y1 ≤ (⟨⟨0, 10, 10, 15⟩, "b", 2⟩ : TextBlock).block.y1 ∧
      (⟨⟨0, 10, 10, 15⟩, "b", 2⟩ : TextBlock).block.y2 ≤ src.block.y2 ∧
      (⟨⟨0, 10, 10, 15⟩, "b", 2⟩ : TextBlock).type = src.type ∧
      (⟨⟨0, 10, 10, 15⟩, "b", 2⟩ : TextBlock).score = src.score :=
  resolve_overlaps_frame
    [⟨⟨0, 0, 10, 10⟩, "a", 1⟩, ⟨⟨0, 5, 10, 15⟩, "b", 2⟩]
    ⟨⟨0, 10, 10, 15⟩, "b", 2⟩
    (by norm_num [resolve_overlaps, stable_sort, ordered_insert,
      Rectangle.area, resolve_loop, clip_against, subtract_overlap,
      rect_intersects])

/-- A text span of `page.get_text("dict")` (input from the external PDF
parser), flattened out of its block/line nesting in iteration order: a
page-point bounding box (`sp["bbox"]`) and its text. -/
structure Span where
  bbox : FitzRect
  text : String
deriving DecidableEq

/-- An entry of the `blocks` list consumed by `_attach_text`:
`{"text": ..., "bbox_px": ..., "type": ...}`. -/
structure AttachBlock where
  text : String
  bbox_px : Rectangle
  type : String
deriving DecidableEq

/-- Python `str.strip()` on the span text: drop leading and trailing
whitespace (an executable embedding of the library call). -/
def strip (s : String) : String :=
  ⟨((s.data.dropWhile Char.isWhitespace).reverse.dropWhile
      Char.isWhitespace).reverse⟩

/-- The helper `to_px_flipped` inside `_attach_text`: the
`_rect_to_image_xy` transform followed by a second vertical flip around
`page_h_px = page_h_pt * scale`. -/
def to_px_flipped (rect_pt : FitzRect) (page_h_pt scale : ℚ) : Rectangle :=
  match rect_to_image_xy rect_pt page_h_pt scale with
  | (x1, y1, x2, y2) =>
      ⟨x1, page_h_pt * scale - y2, x2, page_h_pt * scale - y1⟩

/-- The inner `for target in blocks: ... break` of `_attach_text`: give one
span's text (plus the trailing separator) to the first block whose
rectangle intersects the span's pixel rectangle. -/
def attach_span (span_rect_px : Rectangle) (txt : String) :
    List AttachBlock → List AttachBlock
  | [] => []
  | target :: rest =>
    if rect_intersects span_rect_px target.bbox_px then
      { target with text := target.text ++ txt ++ " " } :: rest
    else target :: attach_span span_rect_px txt rest

/-- `LayoutAnalyzer._attach_text` over the flattened span list: spans with
empty stripped text are skipped, the rest are attached via
`to_px_flipped`. -/
def attach_text (blocks : List AttachBlock) (spans : List Span)
    (page_h_pt scale : ℚ) : List AttachBlock :=
  spans.foldl
    (fun bs sp =>
      if strip sp.text = "" then bs
      else attach_span (to_px_flipped sp.bbox page_h_pt scale)
        (strip sp.text) bs)
    blocks

/-- The amended claim's description of `_attach_text`, written out for
comparison with the source translation: the span rectangle is mapped to
pixel space by scaling all four page-point coordinates by `scale` (no
vertical flip), and each span with nonempty stripped text gives its text
plus a trailing separator to the first block whose rectangle intersects the
scaled span rectangle. -/
def attach_text_scaled (blocks : List AttachBlock) (spans : List Span)
    (scale : ℚ) : List AttachBlock :=
  spans.foldl
    (fun bs sp =>
      if strip sp.text = "" then bs
      else attach_span
        ⟨sp.bbox.x0 * scale, sp.bbox.y0 * scale,
         sp.bbox.x1 * scale, sp.bbox.y1 * scale⟩ (strip sp.text) bs)
    blocks

lemma to_px_flipped_eq_scaled (r : FitzRect) (page_h_pt scale : ℚ) :
    to_px_flipped r page_h_pt scale =
      ⟨r.x0 * scale, r.y0 * scale, r.x1 * scale, r.y1 * scale⟩ := by
  simp only [to_px_flipped, rect_to_image_xy]
  congr 1 <;> ring

/-- Counterexample to C7 as stated: with page height 100 and scale 1, the
span `(0,0,10,10)` (with nonempty text) maps under the CoordinateMapper
transform `_rect_to_image_xy` to `(0,90,10,100)`, which intersects the only
region's rectangle `(0,80,10,100)` — yet `_attach_text` appends nothing to
that region, because its `to_px_flipped` helper flips the mapped rectangle
back to `(0,0,10,10)`, which misses the region. -/
theorem attach_text_not_coordinate_mapper :
    rect_to_image_xy ⟨0, 0, 10, 10⟩ 100 1 = (0, 90, 10, 100) ∧
    rect_intersects ⟨0, 90, 10, 100⟩ ⟨0, 80, 10, 100⟩ = true ∧
    strip "hi" = "hi" ∧
    attach_text [⟨"", ⟨0, 80, 10, 100⟩, "t"⟩] [⟨⟨0, 0, 10, 10⟩, "hi"⟩]
        100 1 =
      [⟨"", ⟨0, 80, 10, 100⟩, "t"⟩] := by
  refine ⟨by norm_num [rect_to_image_xy], by norm_num [rect_intersects],
    rfl, ?_⟩
  norm_num [attach_text, attach_span, to_px_flipped, rect_to_image_xy,
    rect_intersects, strip]

/-- Claim C7 as amended: `_attach_text` maps each span's rectangle to pixel
space by scaling all four coordinates (the CoordinateMapper transform
composed with a second vertical flip, which cancels the flip) and appends
the span's stripped text plus a trailing separator to the first region, in
order, whose rectangle intersects that scaled rectangle; moreover a span
whose pixel rectangle intersects no region leaves every region
unchanged. -/
theorem attach_text_eq_scaled (blocks : List AttachBlock)
    (spans : List Span) (page_h_pt scale : ℚ) :
    attach_text blocks spans page_h_pt scale =
      attach_text_scaled blocks spans scale ∧
    ∀ (span_rect_px : Rectangle) (txt : String) (bs : List AttachBlock),
      (∀ b ∈ bs, rect_intersects span_rect_px b.bbox_px = false) →
      attach_span span_rect_px txt bs = bs := by
  constructor
  · unfold attach_text attach_text_scaled
    apply List.foldl_ext
    intro sp _ bs
    rw [to_px_flipped_eq_scaled]
  · intro span_rect_px txt bs
    induction bs with
    | nil => intro _; rfl
    | cons b rest ih =>
        intro hall
        rw [attach_span, if_neg (by simp [hall b (List.mem_cons_self _ _)]),
          ih fun b hb => hall b (List.mem_cons_of_mem _ hb)]

/-- Witness for the amended C7: a span near the page bottom is attached
under the scaled mapping (the two attachment functions agree on a concrete
page), and a span rectangle meeting no region leaves the single region
unchanged. -/
theorem attach_text_eq_scaled_witness :
    attach_text [⟨"", ⟨0, 80, 10, 100⟩, "t"⟩] [⟨⟨0, 0, 10, 10⟩, "hi"⟩]
        100 1 =
      attach_text_scaled [⟨"", ⟨0, 80, 10, 100⟩, "t"⟩]
        [⟨⟨0, 0, 10, 10⟩, "hi"⟩] 1 ∧
    attach_span ⟨0, 0, 10, 10⟩ "hi" [⟨"", ⟨0, 80, 10, 100⟩, "t"⟩] =
      [⟨"", ⟨0, 80, 10, 100⟩, "t"⟩] :=
  ⟨(attach_text_eq_scaled [⟨"", ⟨0, 80, 10, 100⟩, "t"⟩]
      [⟨⟨0, 0, 10, 10⟩, "hi"⟩] 100 1).1,
   (attach_text_eq_scaled [⟨"", ⟨0, 80, 10, 100⟩, "t"⟩]
      [⟨⟨0, 0, 10, 10⟩, "hi"⟩] 100 1).2 ⟨0, 0, 10, 10⟩ "hi"
      [⟨"", ⟨0, 80, 10, 100⟩, "t"⟩]
      (by intro b hb
          rcases List.mem_singleton.1 hb with rfl
          norm_num [rect_intersects])⟩

end PdfAnalyz
